import Mathlib

/-!
Verification of the heco-relayer core against its source.

The Go source is shallowly embedded: byte streams are `List Nat` (each
element one byte), machine integers are `Nat`/`Int` with explicit
wrapping where the source relies on a fixed width, fallible reads return
`Option`, and external library calls (hashes, key codecs, RPC results)
are parameters of the embedded functions.
-/

namespace HecoRelayer

/-! ### ZeroCopySink / ZeroCopySource

The poly `common` package writes multi-byte integers little-endian and
length-prefixes variable data with a varuint.  `leBytes k v` is the
`k`-byte little-endian form of `v` (truncating, as the Go sink does for
its fixed-width writers), `leVal` the value of such bytes. -/

def leBytes : Nat → Nat → List Nat
  | 0, _ => []
  | k + 1, v => v % 256 :: leBytes k (v / 256)

def leVal : List Nat → Nat
  | [] => 0
  | b :: rest => b + 256 * leVal rest

def nextByte : List Nat → Option (Nat × List Nat)
  | [] => none
  | b :: rest => some (b, rest)

/-- Source read `NextBytes n`: `n` bytes of the source, or eof. -/
def nextBytes (k : Nat) (s : List Nat) : Option (List Nat × List Nat) :=
  if k ≤ s.length then some (s.take k, s.drop k) else none

/-- Reads `NextUint16/32/64` take `k` bytes little-endian. -/
def nextUintLE (k : Nat) (s : List Nat) : Option (Nat × List Nat) :=
  (nextBytes k s).map (fun p => (leVal p.1, p.2))

/-- Sink write `WriteVarUint` of the poly sink. -/
def writeVarUint (v : Nat) : List Nat :=
  if v < 0xFD then [v]
  else if v ≤ 0xFFFF then 0xFD :: leBytes 2 v
  else if v ≤ 0xFFFFFFFF then 0xFE :: leBytes 4 v
  else 0xFF :: leBytes 8 v

/-- Source read `NextVarUint` of the poly source. -/
def nextVarUint (s : List Nat) : Option (Nat × List Nat) := do
  let (fb, s1) ← nextByte s
  if fb = 0xFD then nextUintLE 2 s1
  else if fb = 0xFE then nextUintLE 4 s1
  else if fb = 0xFF then nextUintLE 8 s1
  else pure (fb, s1)

/-- Sink write `WriteVarBytes`: varuint length, then the bytes.  `WriteString`
writes the string's bytes the same way. -/
def writeVarBytes (bs : List Nat) : List Nat := writeVarUint bs.length ++ bs

/-- Source read `NextVarBytes` (and `NextString`). -/
def nextVarBytes (s : List Nat) : Option (List Nat × List Nat) := do
  let (n, s1) ← nextVarUint s
  nextBytes n s1

theorem leBytes_length (k v : Nat) : (leBytes k v).length = k := by
  induction k generalizing v with
  | zero => rfl
  | succ k ih => simp [leBytes, ih]

theorem leVal_leBytes (k v : Nat) (h : v < 256 ^ k) : leVal (leBytes k v) = v := by
  induction k generalizing v with
  | zero => simp [pow_zero] at h; simp [leBytes, leVal, h]
  | succ k ih =>
    have hp : (256 : Nat) ^ (k + 1) = 256 ^ k * 256 := pow_succ 256 k
    have hdiv : v / 256 < 256 ^ k := by
      rw [hp] at h
      omega
    simp [leBytes, leVal, ih _ hdiv]
    omega

theorem nextBytes_append (l r : List Nat) :
    nextBytes l.length (l ++ r) = some (l, r) := by
  simp [nextBytes]

theorem nextUintLE_append (k v : Nat) (r : List Nat) (h : v < 256 ^ k) :
    nextUintLE k (leBytes k v ++ r) = some (v, r) := by
  have hb : nextBytes k (leBytes k v ++ r) = some (leBytes k v, r) := by
    have hx := nextBytes_append (leBytes k v) r
    rwa [leBytes_length] at hx
  simp [nextUintLE, hb, leVal_leBytes k v h]

theorem nextVarUint_append (v : Nat) (r : List Nat) (h : v < 2 ^ 64) :
    nextVarUint (writeVarUint v ++ r) = some (v, r) := by
  by_cases h1 : v < 0xFD
  · have h2 : ¬(v = 0xFD) := by omega
    have h3 : ¬(v = 0xFE) := by omega
    have h4 : ¬(v = 0xFF) := by omega
    simp [writeVarUint, nextVarUint, nextByte, h1, h2, h3, h4]
  · by_cases h2 : v ≤ 0xFFFF
    · have hv : v < 256 ^ 2 := by norm_num; omega
      simp [writeVarUint, nextVarUint, nextByte, h1, h2, nextUintLE_append 2 v r hv]
    · by_cases h3 : v ≤ 0xFFFFFFFF
      · have hv : v < 256 ^ 4 := by norm_num; omega
        simp [writeVarUint, nextVarUint, nextByte, h1, h2, h3,
          nextUintLE_append 4 v r hv]
      · have hv : v < 256 ^ 8 := by norm_num at h ⊢; omega
        simp [writeVarUint, nextVarUint, nextByte, h1, h2, h3,
          nextUintLE_append 8 v r hv]

theorem nextVarBytes_append (bs r : List Nat) (h : bs.length < 2 ^ 64) :
    nextVarBytes (writeVarBytes bs ++ r) = some (bs, r) := by
  rw [writeVarBytes, List.append_assoc, nextVarBytes]
  rw [nextVarUint_append bs.length (bs ++ r) h]
  simp [nextBytes_append]

/-! ### BridgeTransaction, CrossTransfer and their binary formats

`polytypes.Header` and `common2.ToMerkleValue` come from external SDKs,
so their codecs are parameters (`hSer`/`hDeser`, `pSer`/`pDeser`); the
relayer's own layout around them is embedded byte for byte. -/

def FEE_NOCHECK : Nat := 0
def FEE_HASPAY : Nat := 1
def FEE_NOTPAY : Nat := 2

structure BridgeTransaction (H P : Type) where
  header : H
  param : P
  headerProof : List Nat
  anchorHeader : Option H
  polyTxHash : List Nat
  rawAuditPath : List Nat
  hasPay : Nat
  fee : List Nat
deriving DecidableEq

/-- Layout of `BridgeTransaction.Serialization`: header, param, a presence byte for
the (headerProof, anchorHeader) pair, then polyTxHash, rawAuditPath,
hasPay and fee. -/
def BridgeTransaction.Serialization {H P : Type} (hSer : H → List Nat)
    (pSer : P → List Nat) (b : BridgeTransaction H P) : List Nat :=
  hSer b.header ++ pSer b.param ++
    (match b.anchorHeader with
      | some anchor =>
        if b.headerProof ≠ [] then 1 :: (writeVarBytes b.headerProof ++ hSer anchor)
        else [0]
      | none => [0]) ++
    writeVarBytes b.polyTxHash ++ writeVarBytes b.rawAuditPath ++
    [b.hasPay % 256] ++ writeVarBytes b.fee

/-- Reader `BridgeTransaction.Deserialization`.  The source ignores the error of
the anchor header's deserialization (the field then keeps the fresh zero
value); we model that branch with `default` and an unchanged position,
it is unreachable on round trips. -/
def BridgeTransaction.Deserialization {H P : Type} [Inhabited H]
    (hDeser : List Nat → Option (H × List Nat))
    (pDeser : List Nat → Option (P × List Nat)) (s : List Nat) :
    Option (BridgeTransaction H P × List Nat) := do
  let (header, s) ← hDeser s
  let (param, s) ← pDeser s
  let (anchor, s) ← nextByte s
  let (headerProof, anchorHeader, s) ←
    if anchor = 1 then do
      let (hp, s) ← nextVarBytes s
      match hDeser s with
      | some (ah, s2) => pure (hp, some ah, s2)
      | none => pure (hp, some default, s)
    else pure ([], none, s)
  let (polyTxHash, s) ← nextVarBytes s
  let (rawAuditPath, s) ← nextVarBytes s
  let (hasPay, s) ← nextByte s
  let (fee, s) ← nextVarBytes s
  pure ({ header := header, param := param, headerProof := headerProof,
          anchorHeader := anchorHeader, polyTxHash := polyTxHash,
          rawAuditPath := rawAuditPath, hasPay := hasPay, fee := fee }, s)

/-- Valid fields: the presence byte guards the pair coherently, `hasPay`
is one byte, and each variable-length field's length fits a uint64 (Go
slice lengths do). -/
def BridgeTransaction.ValidFields {H P : Type} (b : BridgeTransaction H P) : Prop :=
  (b.headerProof = [] ↔ b.anchorHeader = none) ∧
  b.hasPay < 256 ∧
  b.headerProof.length < 2 ^ 64 ∧ b.polyTxHash.length < 2 ^ 64 ∧
  b.rawAuditPath.length < 2 ^ 64 ∧ b.fee.length < 2 ^ 64

structure CrossTransfer where
  txIndex : List Nat
  txId : List Nat
  value : List Nat
  toChain : Nat
  height : Nat
deriving DecidableEq

def CrossTransfer.Serialization (c : CrossTransfer) : List Nat :=
  writeVarBytes c.txIndex ++ writeVarBytes c.txId ++ writeVarBytes c.value ++
    leBytes 4 c.toChain ++ leBytes 8 c.height

def CrossTransfer.Deserialization (s : List Nat) :
    Option (CrossTransfer × List Nat) := do
  let (txIndex, s) ← nextVarBytes s
  let (txId, s) ← nextVarBytes s
  let (value, s) ← nextVarBytes s
  let (toChain, s) ← nextUintLE 4 s
  let (height, s) ← nextUintLE 8 s
  pure ({ txIndex := txIndex, txId := txId, value := value,
          toChain := toChain, height := height }, s)

/-- Valid fields for a `CrossTransfer`: the `uint32`/`uint64` fields fit
their width, the byte fields' lengths fit a uint64. -/
def CrossTransfer.ValidFields (c : CrossTransfer) : Prop :=
  c.toChain < 2 ^ 32 ∧ c.height < 2 ^ 64 ∧
  c.txIndex.length < 2 ^ 64 ∧ c.txId.length < 2 ^ 64 ∧ c.value.length < 2 ^ 64

instance {H P : Type} [DecidableEq H] (b : BridgeTransaction H P) :
    Decidable b.ValidFields := by
  unfold BridgeTransaction.ValidFields
  infer_instance

instance (c : CrossTransfer) : Decidable c.ValidFields := by
  unfold CrossTransfer.ValidFields
  infer_instance

theorem nextVarBytes_exact (bs : List Nat) (h : bs.length < 2 ^ 64) :
    nextVarBytes (writeVarBytes bs) = some (bs, []) := by
  have hx := nextVarBytes_append bs [] h
  simpa using hx

theorem nextUintLE_exact (k v : Nat) (h : v < 256 ^ k) :
    nextUintLE k (leBytes k v) = some (v, []) := by
  have hx := nextUintLE_append k v [] h
  simpa using hx

set_option maxHeartbeats 1600000 in
/-- C3: for every `BridgeTransaction` with valid fields, `Deserialization`
of `Serialization` returns the same value field-wise (the proof/anchor
pair included), and likewise for every `CrossTransfer`. -/
theorem serialization_roundtrip {H P : Type} [Inhabited H]
    (hSer : H → List Nat) (hDeser : List Nat → Option (H × List Nat))
    (pSer : P → List Nat) (pDeser : List Nat → Option (P × List Nat))
    (Hh : ∀ h r, hDeser (hSer h ++ r) = some (h, r))
    (Hp : ∀ p r, pDeser (pSer p ++ r) = some (p, r))
    (b : BridgeTransaction H P) (hb : b.ValidFields)
    (c : CrossTransfer) (hc : c.ValidFields) :
    BridgeTransaction.Deserialization hDeser pDeser
        (b.Serialization hSer pSer) = some (b, []) ∧
    CrossTransfer.Deserialization c.Serialization = some (c, []) := by
  constructor
  · obtain ⟨header, param, headerProof, anchorHeader, polyTxHash,
      rawAuditPath, hasPay, fee⟩ := b
    simp only [BridgeTransaction.ValidFields] at hb
    obtain ⟨hguard, hpay, hlp, hlh, hla, hlf⟩ := hb
    cases anchorHeader with
    | none =>
      have hp0 : headerProof = [] := hguard.mpr rfl
      subst hp0
      simp [BridgeTransaction.Serialization, BridgeTransaction.Deserialization,
        List.append_assoc, Hh, Hp, nextByte, nextVarBytes_append _ _ hlh,
        nextVarBytes_append _ _ hla, nextVarBytes_exact _ hlf,
        Nat.mod_eq_of_lt hpay]
    | some ah =>
      have hne : headerProof ≠ [] := by
        intro h0
        exact absurd (hguard.mp h0) (by simp)
      simp [BridgeTransaction.Serialization, BridgeTransaction.Deserialization,
        hne, List.append_assoc, Hh, Hp, nextByte, nextVarBytes_append _ _ hlp,
        nextVarBytes_append _ _ hlh, nextVarBytes_append _ _ hla,
        nextVarBytes_exact _ hlf, Nat.mod_eq_of_lt hpay]
  · obtain ⟨txIndex, txId, value, toChain, height⟩ := c
    simp only [CrossTransfer.ValidFields] at hc
    obtain ⟨hch, chh, hlx, hli, hlv⟩ := hc
    have h4 : toChain < 256 ^ 4 := by
      have he : (256 : Nat) ^ 4 = 2 ^ 32 := by norm_num
      omega
    have h8 : height < 256 ^ 8 := by
      have he : (256 : Nat) ^ 8 = 2 ^ 64 := by norm_num
      omega
    simp [CrossTransfer.Serialization, CrossTransfer.Deserialization,
      List.append_assoc, nextVarBytes_append _ _ hlx, nextVarBytes_append _ _ hli,
      nextVarBytes_append _ _ hlv, nextUintLE_append 4 _ _ h4,
      nextUintLE_exact 8 _ h8]

def unitDeser (s : List Nat) : Option (Unit × List Nat) := some ((), s)

def bridgeTxExample : BridgeTransaction Unit Unit :=
  { header := (), param := (), headerProof := [7, 8], anchorHeader := some (),
    polyTxHash := [1], rawAuditPath := [2, 3], hasPay := 1, fee := [51] }

def crossTransferExample : CrossTransfer :=
  { txIndex := [5], txId := [6, 7], value := [8], toChain := 128, height := 70000 }

/-- C3 witness: the round trip evaluated at one concrete
`BridgeTransaction` (anchor present) and one concrete `CrossTransfer`. -/
theorem serialization_roundtrip_witness :
    BridgeTransaction.Deserialization unitDeser unitDeser
        (bridgeTxExample.Serialization (fun _ => []) (fun _ => [])) =
      some (bridgeTxExample, []) ∧
    CrossTransfer.Deserialization crossTransferExample.Serialization =
      some (crossTransferExample, []) :=
  serialization_roundtrip (fun _ => []) unitDeser (fun _ => []) unitDeser
    (fun _ _ => rfl) (fun _ _ => rfl)
    bridgeTxExample (by decide) crossTransferExample (by decide)

/-! ### PolyManager.IsEpoch

External cryptography is parametric: `keccak` stands for
`crypto.Keccak256`, `uncompressed` for `tools.GetEthNoCompressKey` (the
65-byte uncompressed public key), `sortKeys` for
`keypair.SortPublicKeys`.  Peers arrive as already hex-decoded,
deserialized keys (the source ignores both decode errors). -/

/-- Sentinel `common.ADDRESS_EMPTY`: the 20-byte zero address. -/
def ADDRESS_EMPTY : List Nat := List.replicate 20 0

/-- Modelled from the spec: `tools.GetNoCompresskey` is not under `src/`;
per the spec the epoch-change payload is the "flat concatenation of
uncompressed pubkeys (65 bytes each, less leading `0x04`)", so this is
the uncompressed key without its first byte. -/
def GetNoCompresskey {K : Type} (uncompressed : K → List Nat) (k : K) : List Nat :=
  (uncompressed k).drop 1

/-- The keeper wire form the source builds in `IsEpoch`:
`WriteUint64(n)` (8 bytes little-endian), then for every sorted key
`WriteVarBytes(keccak256(uncompressedKey[1:])[12:])`. -/
def keeperBytes {K : Type} (keccak : List Nat → List Nat)
    (uncompressed : K → List Nat) (keys : List K) : List Nat :=
  leBytes 8 keys.length ++
    keys.foldr
      (fun k acc => writeVarBytes ((keccak ((uncompressed k).drop 1)).drop 12) ++ acc) []

/-- The keeper wire form as the claim words it: `varuint(n)` followed by
the plain concatenation of `keccak256(uncompressedPubKey[1:])[12:]`
(no per-item length prefix).  Kept for comparison with `keeperBytes`. -/
def keeperBytesClaim {K : Type} (keccak : List Nat → List Nat)
    (uncompressed : K → List Nat) (keys : List K) : List Nat :=
  writeVarUint keys.length ++
    keys.foldr (fun k acc => (keccak ((uncompressed k).drop 1)).drop 12 ++ acc) []

/-- Embedding of `PolyManager.IsEpoch`: `nextBookkeeper` is the header's field,
`newChainConfigPeers` the decoded consensus payload's optional peer
list, `rawKeepers` DC's `getCurEpochConPubKeyBytes()` result.  The
source checks the two emptiness conditions in one `||`; the error paths
(JSON decode, RPC) are outside this pure core. -/
def IsEpoch {K : Type} (keccak : List Nat → List Nat)
    (uncompressed : K → List Nat) (sortKeys : List K → List K)
    (nextBookkeeper : List Nat) (newChainConfigPeers : Option (List K))
    (rawKeepers : List Nat) : Bool × List Nat :=
  match newChainConfigPeers with
  | none => (false, [])
  | some peers =>
    if nextBookkeeper = ADDRESS_EMPTY then (false, [])
    else
      let bookkeepers := sortKeys peers
      let publickeys :=
        bookkeepers.foldr (fun k acc => GetNoCompresskey uncompressed k ++ acc) []
      if rawKeepers = keeperBytes keccak uncompressed bookkeepers then (false, [])
      else (true, publickeys)

/-- C2 (amended): `IsEpoch` uses the wire form `uint64-LE(n)` followed by
`varbytes(keccak256(key[1:])[12:])` per sorted key (not the bare
`varuint(n) ‖ concat` form); it returns `(false, [])` when the config is
absent, the bookkeeper is the empty sentinel, or that wire form equals
`rawKeepers`, and otherwise `(true, concatenated uncompressed keys minus
their leading byte)`. -/
theorem isEpoch_spec {K : Type} (keccak : List Nat → List Nat)
    (uncompressed : K → List Nat) (sortKeys : List K → List K)
    (nb : List Nat) (cfg : Option (List K)) (rawKeepers : List Nat) :
    (cfg = none →
      IsEpoch keccak uncompressed sortKeys nb cfg rawKeepers = (false, [])) ∧
    (nb = ADDRESS_EMPTY →
      IsEpoch keccak uncompressed sortKeys nb cfg rawKeepers = (false, [])) ∧
    (∀ peers, cfg = some peers → nb ≠ ADDRESS_EMPTY →
      rawKeepers = keeperBytes keccak uncompressed (sortKeys peers) →
      IsEpoch keccak uncompressed sortKeys nb cfg rawKeepers = (false, [])) ∧
    (∀ peers, cfg = some peers → nb ≠ ADDRESS_EMPTY →
      rawKeepers ≠ keeperBytes keccak uncompressed (sortKeys peers) →
      IsEpoch keccak uncompressed sortKeys nb cfg rawKeepers =
        (true, (sortKeys peers).foldr (fun k acc => (uncompressed k).drop 1 ++ acc) [])) := by
  refine ⟨?_, ?_, ?_, ?_⟩
  · intro h; subst h; rfl
  · intro h
    cases cfg with
    | none => rfl
    | some peers => simp [IsEpoch, h]
  · intro peers hcfg hnb hraw
    subst hcfg
    simp [IsEpoch, hnb, hraw]
  · intro peers hcfg hnb hraw
    subst hcfg
    simp [IsEpoch, GetNoCompresskey, hnb, hraw]

/-- A concrete stand-in for keccak256 (any pure 32-byte function do). -/
def keccakEx : List Nat → List Nat := fun l => (l.length % 256) :: List.range 31

/-- A concrete stand-in for the 65-byte uncompressed key of key `k`. -/
def uncompressedEx : Nat → List Nat := fun k => 4 :: (k % 256) :: List.range 63

/-- C2 counterexample: with one peer and `rawKeepers` equal to the
claim's `varuint(n) ‖ concat(hash20)` wire form, `IsEpoch` reports a new
epoch (`true`) because the source's wire form is `uint64-LE(n)` with a
varbytes prefix per hash, not the claim's. -/
theorem isEpoch_wireform_counterexample :
    (IsEpoch keccakEx uncompressedEx (fun l => l) [1]
        (some [0]) (keeperBytesClaim keccakEx uncompressedEx [0])).1 = true ∧
    keeperBytesClaim keccakEx uncompressedEx [0] ≠
      keeperBytes keccakEx uncompressedEx [0] := by
  constructor
  · rfl
  · decide

/-- C2 witness: the amended theorem applied at a concrete header with
one peer and a non-matching `rawKeepers`. -/
theorem isEpoch_spec_witness :
    IsEpoch keccakEx uncompressedEx (fun l => l) [1] (some [0]) [] =
      (true, (uncompressedEx 0).drop 1) := by
  have h := (isEpoch_spec keccakEx uncompressedEx (fun l => l) [1]
    (some [0]) []).2.2.2 [0] rfl (by decide) (by decide)
  simpa using h

/-! ### PolyManager.init (C4)

`flagHeight` is the start-height flag (`startblockHeight`), `dbHeight`
the persisted `polyHeight`, `eccdHeight` DC's
`getCurEpochStartHeight()` as `findLatestHeight` returns it. -/

def PolyManagerInit (flagHeight dbHeight eccdHeight : Nat) : Nat :=
  if 0 < flagHeight then flagHeight
  else
    let currentHeight := dbHeight
    if eccdHeight > currentHeight then eccdHeight else currentHeight

/-- C4 counterexample: with flag 1, persisted height 5 and ECCD height 3
the source starts at 1, not at the maximum 5 the claim requires. -/
theorem polyManagerInit_counterexample :
    PolyManagerInit 1 5 3 = 1 ∧ max 1 (max 5 3) = 5 ∧ (1 : Nat) ≠ 5 := by
  decide

/-- C4 (amended): a positive flag override is used alone; only when the
flag is 0 is the start height the maximum of the persisted height and
the ECCD epoch start height. -/
theorem polyManagerInit_flag_override (f d e : Nat) :
    PolyManagerInit f d e = if 0 < f then f else max d e := by
  unfold PolyManagerInit
  split
  · rfl
  · dsimp only
    split <;> omega

/-! ### PolyManager.handleLockDepositEvents (the RelayWorker SC→DC tick)

The store's deserialized items form the in-memory map, embedded as an
association list in iteration order (Go map iteration order is
arbitrary, which the list order makes explicit).  `parseFee` stands for
`new(big.Float).SetString` (`none` = not parseable), `commitOk` for the
result of `commitDepositEventsWithHeader` on the selected item. -/

/-- One `CheckFeeRsp` of the bridge sdk; its `PayState` constants are an
external enumeration, `stateUnknown` covering every other value. -/
inductive BridgePayState where
  | stateHasPay
  | stateNotPay
  | stateNotPolyProxy
  | stateUnknown
deriving DecidableEq

structure CheckFeeRsp where
  hash : String
  error : String
  payState : BridgePayState
  amount : List Nat
deriving DecidableEq

/-- The fee-annotation of one response: `HASPAY` sets the fee amount,
`NOTPAY` and `NOTPOLYPROXY` mark the item unpaid, anything else leaves
the item as it is (the source mutates the mapped item in place). -/
def applyFeeRsp {H P : Type} (m : List (String × BridgeTransaction H P))
    (r : CheckFeeRsp) : List (String × BridgeTransaction H P) :=
  if r.error ≠ "" then m
  else
    m.map fun kv =>
      if kv.1 = r.hash then
        match r.payState with
        | .stateHasPay => (kv.1, { kv.2 with hasPay := FEE_HASPAY, fee := r.amount })
        | .stateNotPay => (kv.1, { kv.2 with hasPay := FEE_NOTPAY })
        | .stateNotPolyProxy => (kv.1, { kv.2 with hasPay := FEE_NOTPAY })
        | .stateUnknown => kv
      else kv

def applyFees {H P : Type} (m : List (String × BridgeTransaction H P))
    (rsps : List CheckFeeRsp) : List (String × BridgeTransaction H P) :=
  rsps.foldl applyFeeRsp m

/-- Drop every `FEE_NOTPAY` item from store and map. -/
def dropNotPay {H P : Type} (m : List (String × BridgeTransaction H P)) :
    List (String × BridgeTransaction H P) :=
  m.filter fun kv => kv.2.hasPay ≠ FEE_NOTPAY

/-- The selection loop of `handleLockDepositEvents`: `maxFee` starts at
0; an item with an unparseable fee is skipped; an item is selected when
`v.hasPay == FEE_HASPAY || fee.Cmp(maxFee) > 0`, and then `maxFee`
becomes its fee even if smaller. -/
def selectMaxFee {H P : Type} (parseFee : List Nat → Option ℚ)
    (m : List (String × BridgeTransaction H P)) :
    Option (String × BridgeTransaction H P) :=
  (m.foldl
    (fun st kv =>
      match parseFee kv.2.fee with
      | none => st
      | some fee =>
        if kv.2.hasPay = FEE_HASPAY ∨ st.1 < fee then (fee, some kv) else st)
    ((0 : ℚ), none)).2

/-- One tick: annotate fees, drop the `NOTPAY` items, select, submit the
selected item (deleting it on a `true` result), and re-persist the rest.
Returns the final store/map and the key removed by DC submission. -/
def handleLockDepositEvents {H P : Type} (parseFee : List Nat → Option ℚ)
    (m : List (String × BridgeTransaction H P)) (rsps : List CheckFeeRsp)
    (commitOk : Bool) :
    List (String × BridgeTransaction H P) × Option String :=
  match selectMaxFee parseFee (dropNotPay (applyFees m rsps)) with
  | none => (dropNotPay (applyFees m rsps), none)
  | some (k, _) =>
    if commitOk then
      ((dropNotPay (applyFees m rsps)).filter fun kv => kv.1 ≠ k, some k)
    else (dropNotPay (applyFees m rsps), none)

/-- C8: after a tick no stored item has `hasPay = FEE_NOTPAY`, and the
store lost at most one item beyond the `NOTPAY` drops (the one deleted
after a successful DC submission). -/
theorem handleLockDepositEvents_feeGating {H P : Type}
    (parseFee : List Nat → Option ℚ) (m : List (String × BridgeTransaction H P))
    (rsps : List CheckFeeRsp) (commitOk : Bool) :
    (∀ kv ∈ (handleLockDepositEvents parseFee m rsps commitOk).1,
        kv.2.hasPay ≠ FEE_NOTPAY) ∧
    ((handleLockDepositEvents parseFee m rsps commitOk).1 =
        dropNotPay (applyFees m rsps) ∨
      ∃ k, (handleLockDepositEvents parseFee m rsps commitOk).1 =
        (dropNotPay (applyFees m rsps)).filter fun kv => kv.1 ≠ k) := by
  have hmem : ∀ kv ∈ dropNotPay (applyFees m rsps), kv.2.hasPay ≠ FEE_NOTPAY := by
    intro kv hkv
    have h2 := List.of_mem_filter hkv
    simpa using h2
  cases hsel : selectMaxFee parseFee (dropNotPay (applyFees m rsps)) with
  | none =>
    simp only [handleLockDepositEvents, hsel]
    exact ⟨hmem, Or.inl trivial⟩
  | some sel =>
    obtain ⟨k, v⟩ := sel
    cases commitOk with
    | false =>
      simp only [handleLockDepositEvents, hsel, Bool.false_eq_true, if_false]
      exact ⟨hmem, Or.inl trivial⟩
    | true =>
      simp only [handleLockDepositEvents, hsel, if_true]
      refine ⟨?_, Or.inr ⟨k, rfl⟩⟩
      intro kv hkv
      exact hmem kv (List.mem_of_mem_filter hkv)

/-- A `HASPAY` item with the given fee string (header and param do not
enter the selection). -/
def hasPayItem (fee : List Nat) : BridgeTransaction Unit Unit :=
  { header := (), param := (), headerProof := [], anchorHeader := none,
    polyTxHash := [], rawAuditPath := [], hasPay := FEE_HASPAY, fee := fee }

/-- The fee parser at the two decimal strings "3" (byte 51) and "1"
(byte 49). -/
def parseFeeEx : List Nat → Option ℚ
  | [51] => some 3
  | [49] => some 1
  | _ => none

/-- C1: the selection loop takes every `HASPAY` item over the running
maximum (`v.hasPay == FEE_HASPAY || fee.Cmp(maxFee) > 0`), so with two
`HASPAY` items of fees 3 and 1 iterated in that order the item submitted
is the one with fee 1, not the largest fee. -/
theorem selectMaxFee_not_maximum :
    parseFeeEx [51] = some 3 ∧ parseFeeEx [49] = some 1 ∧
    selectMaxFee parseFeeEx
        [("a", hasPayItem [51]), ("b", hasPayItem [49])] =
      some ("b", hasPayItem [49]) := by
  refine ⟨rfl, rfl, ?_⟩
  simp [selectMaxFee, parseFeeEx, hasPayItem, FEE_HASPAY]

/-! ### EthSender.commitDepositEventsWithHeader (C6)

The RPC steps are outcome parameters: `txAlreadyExist` is
`CheckIfFromChainTxExist`, `packOk` the ABI packing, `gasPriceOk` the
gas-price fetch, `estimate` the gas estimate (`none` = error).
`inflate` stands for `uint64(float32(gasLimit) * 1.1)` (a float32
computation, so it stays parametric); the claim constrains its value. -/

structure EthTxInfo where
  txData : List Nat
  gasLimit : Nat
  gasPrice : Nat
  polyTxHash : String
deriving DecidableEq

/-- Guard `CheckGasLimit`: an error exactly when the limit exceeds 300000. -/
def CheckGasLimit (hash : String) (limit : Nat) : Option String :=
  if limit > 300000 then
    some ("Skipping poly tx " ++ hash ++ " for gas limit too high")
  else none

/-- The function's result and the job handed to the route channel (if
any): `(true, none)` on the already-relayed and high-gas exits,
`(false, none)` on pre-submission errors, `(true, some job)` when a job
is enqueued. -/
def commitDepositEventsWithHeader (txAlreadyExist packOk gasPriceOk : Bool)
    (estimate : Option Nat) (inflate : Nat → Nat) (polyTxHash : String)
    (txData : List Nat) (gasPrice : Nat) : Bool × Option EthTxInfo :=
  if txAlreadyExist then (true, none)
  else if ¬packOk then (false, none)
  else if ¬gasPriceOk then (false, none)
  else
    match estimate with
    | none => (false, none)
    | some g =>
      if (CheckGasLimit polyTxHash (inflate g)).isSome then (true, none)
      else
        (true, some { txData := txData, gasLimit := inflate g,
                      gasPrice := gasPrice, polyTxHash := polyTxHash })

/-- C6: when the inflated gas estimate exceeds 300000 the function
returns the success sentinel `true` and hands no job to the route
channel, so the caller deletes the item. -/
theorem commitDeposit_gasGuard (g : Nat) (inflate : Nat → Nat)
    (polyTxHash : String) (txData : List Nat) (gasPrice : Nat)
    (hgas : 300000 < inflate g) :
    commitDepositEventsWithHeader false true true (some g) inflate
        polyTxHash txData gasPrice = (true, none) := by
  simp [commitDepositEventsWithHeader, CheckGasLimit, hgas]

/-- C6 witness: the gas guard at a concrete estimate of 363636 inflated
to 400000. -/
theorem commitDeposit_gasGuard_witness :
    commitDepositEventsWithHeader false true true (some 363636)
        (fun _ => 400000) "tx" [] 0 = (true, none) :=
  commitDeposit_gasGuard 363636 (fun _ => 400000) "tx" [] 0 (by decide)

/-! ### EthSender.commitHeader (C10)

Outcome parameters in source order: gas-price fetch, ABI packing, gas
estimation, signing, `SendTransaction`; `confirmOk` is what
`waitTransactionConfirm` reports afterwards. -/

def commitHeader (gasPriceOk packOk estimateOk signOk sendOk confirmOk : Bool) :
    Bool :=
  if ¬gasPriceOk then false
  else if ¬packOk then false
  else if ¬estimateOk then false
  else if ¬signOk then false
  else if ¬sendOk then false
  else
    -- waitTransactionConfirm's result is only logged
    let _ := confirmOk
    true

/-- C10: `commitHeader` returns `false` exactly when one of the
pre-broadcast steps fails; once `SendTransaction` succeeds it returns
`true` whatever `waitTransactionConfirm` reports. -/
theorem commitHeader_ignores_confirm :
    (∀ g p e s snd c1 c2,
        commitHeader g p e s snd c1 = commitHeader g p e s snd c2) ∧
    (∀ g p e s snd c,
        commitHeader g p e s snd c = (g && p && e && s && snd)) := by
  constructor
  · intro g p e s snd c1 c2
    cases g <;> cases p <;> cases e <;> cases s <;> cases snd <;> rfl
  · intro g p e s snd c
    cases g <;> cases p <;> cases e <;> cases s <;> cases snd <;> rfl

/-! ### PolyManager.selectSender (C9)

Balances are integers (`big.Int`); `balArr[i]` stores the running sum
truncated through `Int64()`, the sample `r` models `sum.Rand`.  The
sender list itself only matters through its length, so the result is
the selected index. -/

/-- Two's-complement truncation of `big.Int.Int64()`. -/
def int64Wrap (n : ℤ) : ℤ := (n + 2 ^ 63) % 2 ^ 64 - 2 ^ 63

/-- Array `balArr`: running sums of the balances, each stored via `Int64()`. -/
def runningSums : List ℤ → ℤ → List ℤ
  | [], _ => []
  | b :: rest, acc => int64Wrap (acc + b) :: runningSums rest (acc + b)

/-- Value of `sum` after the accumulation loop. -/
def totalBalance (balances : List ℤ) : ℤ := balances.foldl (· + ·) 0

/-- The scan `if balArr[i].Cmp(sum) >= 0 return senders[i]`. -/
def selectLoop (r : ℤ) : List ℤ → Nat → Option Nat
  | [], _ => none
  | v :: rest, i => if r ≤ v then some i else selectLoop r rest (i + 1)

/-- Selection of `selectSender`, reduced to the index it picks: the first prefix sum
at least the sample, with `senders[0]` as the fallback. -/
def selectSenderIdx (balances : List ℤ) (r : ℤ) : Nat :=
  match selectLoop r (runningSums balances 0) 0 with
  | some i => i
  | none => 0

/-- A sample of `sum.Rand(rnd, sum)` is a value in `[0, total)`. -/
def sampleInRange (balances : List ℤ) (r : ℤ) : Prop :=
  0 ≤ r ∧ r < totalBalance balances

theorem runningSums_length (balances : List ℤ) (acc : ℤ) :
    (runningSums balances acc).length = balances.length := by
  induction balances generalizing acc with
  | nil => rfl
  | cons b rest ih => simp [runningSums, ih]

theorem selectLoop_lt (r : ℤ) (l : List ℤ) (i j : Nat)
    (h : selectLoop r l i = some j) : j < i + l.length := by
  induction l generalizing i with
  | nil => simp [selectLoop] at h
  | cons v rest ih =>
    rw [selectLoop] at h
    by_cases hr : r ≤ v
    · rw [if_pos hr] at h
      injection h with h
      simp only [List.length_cons]
      omega
    · rw [if_neg hr] at h
      have hrec := ih (i + 1) h
      simp only [List.length_cons]
      omega

theorem totalBalance_zero_of_all_zero (balances : List ℤ)
    (h : ∀ b ∈ balances, b = 0) : totalBalance balances = 0 := by
  have haux : ∀ (l : List ℤ) (acc : ℤ), (∀ b ∈ l, b = 0) →
      l.foldl (· + ·) acc = acc := by
    intro l
    induction l with
    | nil => intro acc _; rfl
    | cons b rest ih =>
      intro acc hl
      have hb : b = 0 := hl b (List.mem_cons_self b rest)
      have hrest : ∀ x ∈ rest, x = 0 := fun x hx => hl x (List.mem_cons_of_mem b hx)
      simp [List.foldl, hb, ih acc hrest]
  exact haux balances 0 h

/-- C9: with at least one sender and a positive total balance
`selectSender` returns one of the configured senders for any sample, and
when every balance is zero the sample's range `[0, total)` is empty, so
the sampling step has no well-defined result. -/
theorem selectSender_spec :
    (∀ (balances : List ℤ) (r : ℤ), balances ≠ [] →
      0 < totalBalance balances → selectSenderIdx balances r < balances.length) ∧
    (∀ balances : List ℤ, (∀ b ∈ balances, b = 0) →
      ¬∃ r : ℤ, sampleInRange balances r) := by
  constructor
  · intro balances r hne _
    unfold selectSenderIdx
    cases hloop : selectLoop r (runningSums balances 0) 0 with
    | none =>
      cases balances with
      | nil => exact absurd rfl hne
      | cons b rest => simp
    | some i =>
      have hlt := selectLoop_lt r (runningSums balances 0) 0 i hloop
      rw [runningSums_length] at hlt
      simpa using hlt
  · intro balances hzero ⟨r, hr0, hrlt⟩
    rw [totalBalance_zero_of_all_zero balances hzero] at hrlt
    omega

/-- C9 witness: index selection on balances `[1, 2]` with sample 0, and
the empty sample range on the all-zero vector `[0, 0]`. -/
theorem selectSender_spec_witness :
    selectSenderIdx [1, 2] 0 < 2 ∧ ¬∃ r : ℤ, sampleInRange [0, 0] r :=
  ⟨selectSender_spec.1 [1, 2] 0 (by decide) (by decide),
   selectSender_spec.2 [0, 0] (by decide)⟩

/-! ### String containment (Go `strings.Contains`) -/

/-- Does `sub` lead the second list? -/
def leadMatch : List Char → List Char → Bool
  | [], _ => true
  | _ :: _, [] => false
  | c :: cs, d :: ds => c = d && leadMatch cs ds

/-- Does `sub` occur contiguously in the second list? -/
def subOccurs (sub : List Char) : List Char → Bool
  | [] => sub.isEmpty
  | c :: rest => leadMatch sub (c :: rest) || subOccurs sub rest

/-- Go `strings.Contains s sub`. -/
def strContains (s sub : String) : Bool := subOccurs sub.data s.data

/-! ### HecoManager.commitHecoHeaderToPoly and rollBackToCommAncestor (C5)

`scHash h` is SC's `HeaderSync.MAIN_CHAIN[sideChainId][h]` record
(`none` for a storage error, `some []` for no record), `dcHash h` DC's
header hash at `h`.  The unbounded `for ;; currentHeight--` loop gets an
explicit fuel. -/

structure HecoManagerState where
  currentHeight : Nat
  header4sync : List (List Nat)
deriving DecidableEq

/-- The rollback walk: at each height, skip when SC has no record, stop
at the first height whose DC hash equals SC's record, else step down. -/
def rollBackLoop (scHash : Nat → Option (List Nat)) (dcHash : Nat → List Nat) :
    Nat → Nat → Option Nat
  | 0, _ => none
  | fuel + 1, h =>
    match scHash h with
    | none => rollBackLoop scHash dcHash fuel (h - 1)
    | some raw =>
      if raw = [] then rollBackLoop scHash dcHash fuel (h - 1)
      else if dcHash h = raw then some h
      else rollBackLoop scHash dcHash fuel (h - 1)

/-- Embedding of `rollBackToCommAncestor`: walk down from `currentHeight`, then clear
`header4sync`. -/
def rollBackToCommAncestor (scHash : Nat → Option (List Nat))
    (dcHash : Nat → List Nat) (fuel : Nat) (st : HecoManagerState) :
    Option HecoManagerState :=
  match rollBackLoop scHash dcHash fuel st.currentHeight with
  | none => none
  | some h => some { currentHeight := h, header4sync := [] }

/-- Embedding of `commitHecoHeaderToPoly`: on a submission error matching one of the
two fork messages, roll back and return 0; on another error return 1; on
success (confirmation awaited) clear the batch and return 0. -/
def commitHecoHeaderToPoly (scHash : Nat → Option (List Nat))
    (dcHash : Nat → List Nat) (fuel : Nat) (syncErr : Option String)
    (st : HecoManagerState) : Option (Nat × HecoManagerState) :=
  match syncErr with
  | some errDesc =>
    if strContains errDesc "parent header not exist" ||
        strContains errDesc "missing required field" then
      (rollBackToCommAncestor scHash dcHash fuel st).map (fun st2 => (0, st2))
    else some (1, st)
  | none => some (0, { st with header4sync := [] })

theorem rollBackLoop_finds (scHash : Nat → Option (List Nat))
    (dcHash : Nat → List Nat) (a : Nat) (w : List Nat)
    (hAgree : scHash a = some w) (hw : w ≠ []) (hdc : dcHash a = w) :
    ∀ k, (∀ j, a < j → j ≤ a + k → ∀ raw, scHash j = some raw →
        raw = [] ∨ dcHash j ≠ raw) →
      rollBackLoop scHash dcHash (k + 1) (a + k) = some a := by
  intro k
  induction k with
  | zero =>
    intro _
    simp [rollBackLoop, hAgree, hw, hdc]
  | succ k ih =>
    intro hDis
    have hih := ih (fun j h1 h2 => hDis j h1 (by omega))
    have hsub : a + (k + 1) - 1 = a + k := by omega
    cases hsc : scHash (a + (k + 1)) with
    | none =>
      rw [rollBackLoop, hsc, hsub]
      exact hih
    | some raw =>
      rcases hDis (a + (k + 1)) (by omega) (by omega) raw hsc with hre | hrd
      · rw [rollBackLoop, hsc]
        dsimp only
        rw [if_pos hre, hsub]
        exact hih
      · by_cases hre : raw = []
        · rw [rollBackLoop, hsc]
          dsimp only
          rw [if_pos hre, hsub]
          exact hih
        · rw [rollBackLoop, hsc]
          dsimp only
          rw [if_neg hre, if_neg hrd, hsub]
          exact hih

/-- C5: when the header-sync submission fails with a fork error, and DC
and SC agree at height `a` (with a nonempty SC record) but disagree or
lack records on `(a, a+k]`, `commitHecoHeaderToPoly` rolls back: it
returns 0 and a state whose `currentHeight` is the common ancestor `a`
and whose `header4sync` is empty. -/
theorem commitHeader_rollback (scHash : Nat → Option (List Nat))
    (dcHash : Nat → List Nat) (a k : Nat) (w : List Nat) (e : String)
    (hdrs : List (List Nat)) (hkpos : 0 < k)
    (hAgree : scHash a = some w) (hw : w ≠ []) (hdc : dcHash a = w)
    (hDis : ∀ j, a < j → j ≤ a + k → ∀ raw, scHash j = some raw →
      raw = [] ∨ dcHash j ≠ raw)
    (hErr : strContains e "parent header not exist" = true ∨
      strContains e "missing required field" = true) :
    commitHecoHeaderToPoly scHash dcHash (k + 1) (some e)
        { currentHeight := a + k, header4sync := hdrs } =
      some (0, { currentHeight := a, header4sync := [] }) := by
  have hloop := rollBackLoop_finds scHash dcHash a w hAgree hw hdc k hDis
  have hcond : (strContains e "parent header not exist" ||
      strContains e "missing required field") = true := by
    rcases hErr with h | h <;> simp [h]
  simp [commitHecoHeaderToPoly, hcond, rollBackToCommAncestor, hloop]

/-- SC's recorded hashes in the witness scenario: present everywhere up
to height 5, matching DC only at height 3. -/
def scHashEx : Nat → Option (List Nat) :=
  fun h => if h = 3 then some [1] else if h ≤ 5 then some [9] else none

/-- DC's header hashes in the witness scenario. -/
def dcHashEx : Nat → List Nat := fun h => if h = 3 then [1] else [7]

/-- C5 witness: a fork at heights 4..5 with the common ancestor at 3;
one rollback lands on height 3 with an empty batch. -/
theorem commitHeader_rollback_witness :
    commitHecoHeaderToPoly scHashEx dcHashEx 3 (some "parent header not exist")
        { currentHeight := 5, header4sync := [[5]] } =
      some (0, { currentHeight := 3, header4sync := [] }) := by
  have h := commitHeader_rollback scHashEx dcHashEx 3 2 [1]
    "parent header not exist" [[5]] (by decide) (by decide) (by decide) (by decide)
    (by
      intro j h1 h2 raw hsc
      have hj : j = 4 ∨ j = 5 := by omega
      rcases hj with rfl | rfl <;> simp [scHashEx, dcHashEx] at hsc ⊢ <;> simp [← hsc])
    (Or.inl (by decide))
  simpa using h

/-! ### HecoManager.handleCachedLockDepositEvents (C7)

Per retry item `v`, after proof fetching succeeds, `res` is the outcome
of `commitProof` (`ImportOuterTransfer`): the returned SC tx hash or the
error text.  The retry bucket holds serialized values, the check bucket
maps SC tx hashes to the original retry values. -/

def handleRetryItem (retry : List (List Nat)) (check : List (String × List Nat))
    (v : List Nat) (res : Except String String) :
    List (List Nat) × List (String × List Nat) :=
  match res with
  | .error e =>
    if strContains e "chooseUtxos, current utxo is not enough" then (retry, check)
    else if strContains e "tx already done" then
      (retry.filter (fun x => x ≠ v), check)
    else (retry, check)
  | .ok txHash => (retry.filter (fun x => x ≠ v), (txHash, v) :: check)

/-- C7: an error not containing `tx already done` (the utxo shortage
included) leaves the retry bucket and the check bucket unchanged; a
`tx already done` error (that is not also a utxo match, which the source
tests first) deletes the item from retry and creates no check entry;
success moves the item to the check bucket under the returned SC tx
hash and deletes it from retry. -/
theorem handleRetryItem_classification (retry : List (List Nat))
    (check : List (String × List Nat)) (v : List Nat) :
    (∀ e, strContains e "tx already done" = false →
      handleRetryItem retry check v (.error e) = (retry, check)) ∧
    (∀ e, strContains e "tx already done" = true →
      strContains e "chooseUtxos, current utxo is not enough" = false →
      handleRetryItem retry check v (.error e) =
        (retry.filter (fun x => x ≠ v), check)) ∧
    (∀ txHash, handleRetryItem retry check v (.ok txHash) =
      (retry.filter (fun x => x ≠ v), (txHash, v) :: check)) := by
  refine ⟨?_, ?_, ?_⟩
  · intro e he
    by_cases hu : strContains e "chooseUtxos, current utxo is not enough"
    · simp [handleRetryItem, hu]
    · simp [handleRetryItem, hu, he]
  · intro e he hu
    simp [handleRetryItem, hu, he]
  · intro txHash
    rfl

/-- C7 witness: the already-done deletion and the successful move, on a
two-item retry bucket. -/
theorem handleRetryItem_witness :
    handleRetryItem [[1], [2]] [] [1] (.error "tx already done") = ([[2]], []) ∧
    handleRetryItem [[1], [2]] [] [1] (.ok "ph") = ([[2]], [("ph", [1])]) := by
  constructor
  · exact ((handleRetryItem_classification [[1], [2]] [] [1]).2.1
      "tx already done" (by decide) (by decide)).trans (by decide)
  · exact ((handleRetryItem_classification [[1], [2]] [] [1]).2.2 "ph").trans
      (by decide)

end HecoRelayer
